import Mathlib

/-!
Verification of the exam-simulator parsing and session logic.

Shallow embedding of `src/exam.py` (class `ExamSimulator`): the markdown
question parser, the duplicate-detection keying, the section assignment,
and the session/order controller.  Strings are modelled as `List Char`;
Python regular expressions are modelled by hand-rolled scanners with the
same matching semantics on the relevant inputs; `random.shuffle` is
modelled by an explicit shuffle parameter.
-/

/-- Python `\s` on the ASCII range (space, tab, newline, carriage return,
vertical tab, form feed). -/
def isPyWs (c : Char) : Bool :=
  c = ' ' || c = '\t' || c = '\n' || c = '\r' || c = '\x0b' || c = '\x0c'

/-- The fixed punctuation set removed by `compute_question_key`
(regex `[.,;:()]`). -/
def isPunct (c : Char) : Bool :=
  c = '.' || c = ',' || c = ';' || c = ':' || c = '(' || c = ')'

/-- Python `str.lower()` on the ASCII range, applied characterwise. -/
def lowerL (l : List Char) : List Char := l.map Char.toLower

/-- Python `str.strip()`: drop leading and trailing whitespace. -/
def pyStrip (l : List Char) : List Char :=
  ((l.dropWhile isPyWs).reverse.dropWhile isPyWs).reverse

/-- Python `str.split("\n")`. -/
def splitLines : List Char → List (List Char)
  | [] => [[]]
  | c :: rest =>
    if c = '\n' then [] :: splitLines rest
    else
      match splitLines rest with
      | [] => [[c]]
      | h :: t => (c :: h) :: t

/-- Python `str.find(pat)`: index of the first occurrence of `pat`
as a contiguous sublist, if any. -/
def findSub (pat : List Char) : List Char → Option Nat
  | [] => if pat.isEmpty then some 0 else none
  | c :: rest =>
    if pat.isPrefixOf (c :: rest) then some 0
    else (findSub pat rest).map (· + 1)

/-- Python `pat in s`. -/
def containsSub (pat l : List Char) : Bool := (findSub pat l).isSome

/-- Worker for `collapseWs`: the flag records whether we are inside a
whitespace run whose single replacement space was already emitted. -/
def collapseWsAux (inWs : Bool) : List Char → List Char
  | [] => []
  | c :: rest =>
    if isPyWs c then
      if inWs then collapseWsAux true rest
      else ' ' :: collapseWsAux true rest
    else c :: collapseWsAux false rest

/-- Python `re.sub(r"\s+", " ", s)`: each maximal whitespace run becomes
one space. -/
def collapseWs (l : List Char) : List Char := collapseWsAux false l

/-- Python `re.sub(r"[.,;:()]", "", s)`. -/
def removePunct (l : List Char) : List Char := l.filter (fun c => !(isPunct c))

/-- Scan for the first `-->` (the lazy `.*?-->` of the comment regex);
`.` does not match a newline, so a newline aborts the search. -/
def dropToClose : List Char → Option (List Char)
  | [] => none
  | c :: rest =>
    if ['-', '-', '>'].isPrefixOf (c :: rest) then some ((c :: rest).drop 3)
    else if c = '\n' then none
    else dropToClose rest

/-- Fuelled worker for `stripComments`; fuel `l.length + 1` always
suffices since every step consumes at least one character. -/
def stripCommentsF : Nat → List Char → List Char
  | 0, l => l
  | _ + 1, [] => []
  | f + 1, c :: rest =>
    if ['<', '!', '-', '-'].isPrefixOf (c :: rest) then
      match dropToClose (List.drop 3 rest) with
      | some r2 => stripCommentsF f r2
      | none => c :: stripCommentsF f rest
    else c :: stripCommentsF f rest

/-- Python `re.sub(r"<!--.*?-->", "", s)` (no DOTALL): remove each
HTML-style comment, matching lazily to the first `-->`. -/
def stripComments (l : List Char) : List Char := stripCommentsF (l.length + 1) l

/-- Model of `compute_question_key` from `src/exam.py`: lowercase and strip the
text, remove HTML-style comments, remove the fixed punctuation set,
collapse whitespace runs to single spaces. -/
def compute_question_key (t : List Char) : List Char :=
  collapseWs (removePunct (stripComments (pyStrip (lowerL t))))

/-- Match `\d+\.\s+` at the head of the list (greedy digit and whitespace
runs) and return the number of characters consumed. -/
def matchNumDotWs (l : List Char) : Option Nat :=
  let ds := l.takeWhile Char.isDigit
  if ds.isEmpty then none
  else
    match l.drop ds.length with
    | '.' :: rest =>
      let ws := rest.takeWhile isPyWs
      if ws.isEmpty then none else some (ds.length + 1 + ws.length)
    | _ => none

/-- The lookahead `(?=\n\d+\.\s+|\n##|\n### |\Z)` that terminates a
question block. -/
def isDelim : List Char → Bool
  | [] => true
  | '\n' :: rest => ['#', '#'].isPrefixOf rest || (matchNumDotWs rest).isSome
  | _ => false

/-- Distance to the first delimiter position (the lazy `.*?` of the
block regex; the end of input always delimits). -/
def findDelim : List Char → Nat
  | [] => 0
  | c :: rest => if isDelim (c :: rest) then 0 else 1 + findDelim rest

/-- Fuelled worker for `findBlocks`. -/
def findBlocksF : Nat → List Char → List (List Char)
  | 0, _ => []
  | _ + 1, [] => []
  | f + 1, c :: rest =>
    match matchNumDotWs (c :: rest) with
    | some n =>
      let k := findDelim ((c :: rest).drop n)
      ((c :: rest).take (n + k)) :: findBlocksF f ((c :: rest).drop (n + k))
    | none => findBlocksF f rest

/-- Python `re.findall(r"(\d+\.\s+.*?)(?=\n\d+\.\s+|\n##|\n### |\Z)",
content, re.DOTALL)`: scan left to right for `\d+\.\s+`, extend lazily to
the first delimiter, continue after the match. -/
def findBlocks (l : List Char) : List (List Char) := findBlocksF (l.length + 1) l

/-- Python `re.match(r"^#+\s+(.+)$", line)`: a heading line is one or
more `#`, at least one whitespace character, then a non-empty remainder
(the greedy `\s+` backtracks one character when the rest of the line is
all whitespace). Returns the captured section name. -/
def matchHeading (line : List Char) : Option (List Char) :=
  let hs := line.takeWhile (fun c => c = '#')
  if hs.isEmpty then none
  else
    let rest := line.drop hs.length
    let w := rest.takeWhile isPyWs
    if w.isEmpty then none
    else if w.length < rest.length then some (rest.drop w.length)
    else if 2 ≤ rest.length then some (rest.drop (rest.length - 1))
    else none

/-- The `sections` dictionary of `load_questions`: 1-based line numbers of
heading lines paired with their names, in document order. -/
def sectionsOf (content : List Char) : List (Nat × List Char) :=
  (splitLines content).enum.filterMap
    (fun p => (matchHeading p.2).map (fun nm => (p.1 + 1, nm)))

/-- The value of `current_section` after the scanning loop: the last
heading in the file, or `"Unknown Exam"` if there is none. -/
def lastSectionName (content : List Char) : List Char :=
  match (sectionsOf content).getLast? with
  | some p => p.2
  | none => ("Unknown Exam").toList

/-- The per-block section loop: walk `sorted(sections.items(),
reverse=True)` and take the first entry whose line number is `≤ n`,
falling back to `current_section` (the default). -/
def sectionForLine (secs : List (Nat × List Char)) (dflt : List Char) (n : Nat) : List Char :=
  match secs.reverse.find? (fun p => p.1 ≤ n) with
  | some p => p.2
  | none => dflt

/-- Python `int` on a nonempty digit string. -/
def digitsToNat (ds : List Char) : Nat :=
  ds.foldl (fun a c => a * 10 + (c.toNat - 48)) 0

/-- Try to match `<!--\s*valid:\s*(\d+)\s*-->` at the head of the list. -/
def tryValidAt (l : List Char) : Option Nat :=
  if ['<', '!', '-', '-'].isPrefixOf l then
    let r1 := (l.drop 4).dropWhile isPyWs
    if ['v', 'a', 'l', 'i', 'd', ':'].isPrefixOf r1 then
      let r2 := (r1.drop 6).dropWhile isPyWs
      let ds := r2.takeWhile Char.isDigit
      if ds.isEmpty then none
      else
        let r3 := (r2.drop ds.length).dropWhile isPyWs
        if ['-', '-', '>'].isPrefixOf r3 then some (digitsToNat ds) else none
    else none
  else none

/-- Python `re.search(r"<!--\s*valid:\s*(\d+)\s*-->", line)`: leftmost
match anywhere in the line, returning the captured count. -/
def findValidTag : List Char → Option Nat
  | [] => none
  | c :: rest =>
    match tryValidAt (c :: rest) with
    | some v => some v
    | none => findValidTag rest

/-- One option line of a block: `re.match(r"^\s*\d+\.\s+", line)` plus
removal of the matched prefix and stripping; empty options are dropped. -/
def parseOption (line : List Char) : Option (List Char) :=
  let w := line.takeWhile isPyWs
  match matchNumDotWs (line.drop w.length) with
  | none => none
  | some n =>
    let t := pyStrip (line.drop (w.length + n))
    if t.isEmpty then none else some t

/-- The `question_data` dictionary built by `load_questions`. -/
structure Question where
  question : List Char
  options : List (List Char)
  valid_answers : Nat
  is_ai : Bool
  source_exam : List Char
  key : List Char
  duplicate_count : Nat
  duplicate_sources : List (List Char)
deriving DecidableEq, Repr

/-- The `[AI-Generated]` marker token. -/
def aiMarker : List Char := ("[AI-Generated]").toList

/-- Processing of one question block inside `load_questions`: split into
lines, require at least two lines, match the question line, collect the
valid-answer count and the options, and assign the section from the
position of the block's first occurrence in the file.  Returns `none`
for blocks the loader silently discards. -/
def parseBlock (content block : List Char) : Option Question :=
  let lines := splitLines (pyStrip block)
  if lines.length < 2 then none
  else
    match lines with
    | [] => none
    | l0 :: restLines =>
      match matchNumDotWs l0 with
      | none => none
      | some n =>
        let qtext := pyStrip (l0.drop n)
        let opts := restLines.filterMap parseOption
        if opts.isEmpty then none
        else
          let pos := (findSub block content).getD 0
          let lineNum := (content.take pos).count '\n'
          some {
            question := qtext
            options := opts
            valid_answers := ((lines.filterMap findValidTag).head?).getD 1
            is_ai := containsSub aiMarker l0
            source_exam := sectionForLine (sectionsOf content) (lastSectionName content) lineNum
            key := compute_question_key qtext
            duplicate_count := 1
            duplicate_sources := [] }

/-- The full parse: every block of the file that survives the checks, in
file order (`self.questions` before duplicate annotation). -/
def parseQuestions (content : List Char) : List Question :=
  (findBlocks content).filterMap (parseBlock content)

/-- Distinct elements in first-occurrence order (the key-insertion order
of `question_key_map`); `seen` accumulates keys already produced. -/
def firstKeysAux (seen : List (List Char)) : List (List Char) → List (List Char)
  | [] => []
  | k :: ks =>
    if k ∈ seen then firstKeysAux seen ks
    else k :: firstKeysAux (k :: seen) ks

/-- The keys of `question_key_map` in insertion order. -/
def firstKeys (l : List (List Char)) : List (List Char) := firstKeysAux [] l

/-- Index of the first question carrying a given key (`indices[0]`). -/
def firstIdxOfKey (qs : List Question) (k : List Char) : Nat :=
  qs.findIdx (fun q => q.key == k)

/-- Model of `self.unique_questions`: for each key in insertion order, the index
of its first occurrence. -/
def unique_questions (qs : List Question) : List Nat :=
  (firstKeys (qs.map (fun q => q.key))).map (firstIdxOfKey qs)

/-- The duplicate-processing loop: the representative (first) question of
each key group receives the group size and the list of the group's
source sections; the other questions are left untouched. -/
def annotateQuestions (qs : List Question) : List Question :=
  qs.enum.map (fun p =>
    if firstIdxOfKey qs p.2.key = p.1 then
      { p.2 with
        duplicate_count := qs.countP (fun r => r.key == p.2.key)
        duplicate_sources := (qs.filter (fun r => r.key == p.2.key)).map
          (fun r => r.source_exam) }
    else p.2)

/-- The mutable quiz state of `ExamSimulator` relevant to the session
controller. -/
structure SessionState where
  questions : List Question
  uniqueQuestions : List Nat
  questionOrder : List Nat
  currentQuestionIndex : Nat
  score : Nat
  questionsAnswered : Nat
  randomized : Bool
  nonAiOnly : Bool
deriving DecidableEq, Repr

/-- The filtered index list of `initialize_question_order`: drop an index
when the non-AI filter is on and the question is AI-flagged. -/
def filteredIdx (s : SessionState) : List Nat :=
  s.uniqueQuestions.filter
    (fun i => !(s.nonAiOnly && (((s.questions.get? i).map (fun q => q.is_ai)).getD false)))

/-- Model of the order recomputation, with `random.shuffle` abstracted into an
explicit `shuffle` parameter applied only when randomize is active. -/
def init_question_order (shuffle : List Nat → List Nat) (s : SessionState) : SessionState :=
  if s.randomized then { s with questionOrder := shuffle (filteredIdx s) }
  else { s with questionOrder := filteredIdx s }

/-- Model of `restart_quiz`: reset position, score and answered count (the
subsequent `show_question` call is display-only). -/
def restart_quiz (s : SessionState) : SessionState :=
  { s with currentQuestionIndex := 0, score := 0, questionsAnswered := 0 }

/-- Model of `toggle_randomize`: store the checkbox value, recompute the order,
restart. -/
def toggle_randomize (shuffle : List Nat → List Nat) (b : Bool) (s : SessionState) :
    SessionState :=
  restart_quiz (init_question_order shuffle { s with randomized := b })

/-- Model of `toggle_non_ai_only`: the checkbox variable changes, the order is
recomputed, the quiz restarts. -/
def toggle_non_ai_only (shuffle : List Nat → List Nat) (b : Bool) (s : SessionState) :
    SessionState :=
  restart_quiz (init_question_order shuffle { s with nonAiOnly := b })

/-- Model of `get_current_question`: `None` when the question list or the order is
empty, otherwise the question at the order's current position. -/
def get_current_question (s : SessionState) : Option Question :=
  if s.questions.isEmpty || s.questionOrder.isEmpty then none
  else
    match s.questionOrder.get? s.currentQuestionIndex with
    | none => none
    | some i => s.questions.get? i

/-- Model of `show_question` as an `Except`: an early `return` when no questions
are loaded (`.ok none`), a `TypeError` crash when `get_current_question`
returns `None` and is subscripted, otherwise the display data (cleaned
question text and options). -/
def show_question (s : SessionState) :
    Except (List Char) (Option (List Char × List (List Char))) :=
  if s.questions.isEmpty then Except.ok none
  else
    match get_current_question s with
    | none => Except.error (("TypeError: NoneType object is not subscriptable").toList)
    | some q => Except.ok (some (pyStrip (stripComments q.question), q.options))

/-- Model of `show_result` given the display permutation `perm` (the shuffled
original option indices) and the selected display index `d`: judge the
answer by mapping `d` back to the original index and comparing with the
valid-answer count, then update score and answered count.  `none` models
the crashes on a missing current question or an out-of-range index. -/
def show_result (s : SessionState) (perm : List Nat) (d : Nat) :
    Option (Bool × SessionState) :=
  match get_current_question s with
  | none => none
  | some q =>
    match perm.get? d with
    | none => none
    | some origIdx =>
      let correct : Bool := decide (origIdx < q.valid_answers)
      some (correct,
        { s with
          score := s.score + (if correct then 1 else 0)
          questionsAnswered := s.questionsAnswered + 1 })

/-- The denominator of the final score display in `advance_to_next`:
all loaded questions, restricted to non-AI ones when the filter is on. -/
def finalScoreTotal (s : SessionState) : Nat :=
  if s.nonAiOnly then (s.questions.filter (fun q => !q.is_ai)).length
  else s.questions.length

/-- Model of `advance_to_next`: step to the next position, or at the end produce
the final `score/total` display. -/
def advance_to_next (s : SessionState) : SessionState ⊕ (Nat × Nat) :=
  if s.currentQuestionIndex < s.questionOrder.length - 1 then
    Sum.inl { s with currentQuestionIndex := s.currentQuestionIndex + 1 }
  else
    Sum.inr (s.score, finalScoreTotal s)

/-- Model of `load_questions`: the three error exits (no path given, file missing,
no valid questions) each report a message and leave the state empty; on
success the questions are annotated, the unique list is built, and the
order is computed with the initial settings (randomize and filter both
off). Returns the resulting state and the error message, if any. -/
def load_questions (examFileGiven : Bool) (fileContent : Option (List Char)) :
    SessionState × Option (List Char) :=
  let empty : SessionState :=
    { questions := [], uniqueQuestions := [], questionOrder := [],
      currentQuestionIndex := 0, score := 0, questionsAnswered := 0,
      randomized := false, nonAiOnly := false }
  if !examFileGiven then (empty, some (("No exam file specified").toList))
  else
    match fileContent with
    | none => (empty, some (("Exam file not found").toList))
    | some content =>
      let qs := annotateQuestions (parseQuestions content)
      if qs.isEmpty then (empty, some (("No valid questions found").toList))
      else
        (init_question_order id
          { empty with questions := qs, uniqueQuestions := unique_questions qs }, none)

/-- The session right after a successful construction on a given file
content. -/
def mkSession (content : List Char) : SessionState :=
  (load_questions true (some content)).1

/-- Modelled from the spec: "the nearest preceding markdown heading line"
as the last heading line, in document order, whose line number is at most
`n`; with the file's last heading (or `"Unknown Exam"`) as fallback.
Used to compare the code's section assignment against the spec's words. -/
def nearestPrecedingSection (content : List Char) (n : Nat) : List Char :=
  match ((sectionsOf content).filter (fun p => p.1 ≤ n)).getLast? with
  | some p => p.2
  | none => lastSectionName content

/-- Texts differing only by inserted punctuation characters: `t2` is `t1`
with characters of the fixed punctuation set inserted at arbitrary
positions. -/
inductive PunctIns : List Char → List Char → Prop
  | nil : PunctIns [] []
  | keep (c : Char) {t1 t2 : List Char} : PunctIns t1 t2 → PunctIns (c :: t1) (c :: t2)
  | ins (c : Char) {t1 t2 : List Char} : isPunct c = true → PunctIns t1 t2 →
      PunctIns t1 (c :: t2)

/-- Texts differing only by whitespace variation: matching non-whitespace
characters, with each nonempty whitespace run replaced by another
nonempty whitespace run. -/
inductive WsVar : List Char → List Char → Prop
  | nil : WsVar [] []
  | keep (c : Char) {t1 t2 : List Char} : isPyWs c = false → WsVar t1 t2 →
      WsVar (c :: t1) (c :: t2)
  | ws {r1 r2 t1 t2 : List Char} : r1 ≠ [] → r2 ≠ [] →
      (∀ c ∈ r1, isPyWs c = true) → (∀ c ∈ r2, isPyWs c = true) →
      WsVar t1 t2 → WsVar (r1 ++ t1) (r2 ++ t2)

/-- Whether the text contains the comment opener `<!--`. -/
def hasMarker : List Char → Bool
  | [] => false
  | c :: rest => ['<', '!', '-', '-'].isPrefixOf (c :: rest) || hasMarker rest

/-! ## Concrete inputs used by the claims -/

/-- A file whose single question is AI-generated. -/
def contentAllAi : List Char := ("1. [AI-Generated] Q?\n   1. A\n   2. B").toList

/-- A file with two duplicate question blocks. -/
def contentDup : List Char := ("1. Same?\n   1. A\n2. Same?\n   1. A").toList

/-- A question used to populate concrete session states. -/
def qA : Question :=
  { question := ("A?").toList, options := [("x").toList], valid_answers := 1,
    is_ai := false, source_exam := ("S").toList, key := ("a?").toList,
    duplicate_count := 1, duplicate_sources := [("S").toList] }

/-- A second question with a different key. -/
def qB : Question :=
  { qA with question := ("B?").toList, key := ("b?").toList }

/-- A session state with randomize active whose stored order `[7]` is not
a permutation of the filtered unique indices `[0, 1]`. -/
def s4 : SessionState :=
  { questions := [qA, qB], uniqueQuestions := [0, 1], questionOrder := [7],
    currentQuestionIndex := 1, score := 3, questionsAnswered := 2,
    randomized := true, nonAiOnly := false }

/-- A randomize-active session state on the two-question set. -/
def s8ex : SessionState :=
  { s4 with
    questionOrder := [], currentQuestionIndex := 0, score := 0,
    questionsAnswered := 0 }

/-! ## Claim theorems -/

/-- C1: on a question set in which every question is AI-flagged, enabling
the non-AI filter yields an empty traversal order, but `show_question`
then subscripts the `None` returned by `get_current_question` and raises
a `TypeError` instead of presenting a well-defined no-questions state:
the questions list is non-empty, the order is empty, and the show step
errors.  This evaluates the code at the failing input of the code bug. -/
theorem c1_filter_all_ai_crashes :
    (toggle_non_ai_only id true (mkSession contentAllAi)).questions ≠ [] ∧
    (toggle_non_ai_only id true (mkSession contentAllAi)).questionOrder = [] ∧
    show_question (toggle_non_ai_only id true (mkSession contentAllAi)) =
      Except.error (("TypeError: NoneType object is not subscriptable").toList) := by
  refine ⟨by decide, by decide, ?_⟩
  rfl

/-- C4 counterexample: `restart_quiz` leaves the stored traversal order
untouched even with randomize active — here the stored order `[7]` is
not even a permutation of the filtered unique indices, which any fresh
reshuffle would have produced.  The order is therefore not freshly
reshuffled on restart. -/
theorem c4_restart_no_reshuffle :
    s4.randomized = true ∧
    (restart_quiz s4).questionOrder = s4.questionOrder ∧
    ¬ ((restart_quiz s4).questionOrder).Perm (filteredIdx (restart_quiz s4)) := by
  refine ⟨rfl, rfl, ?_⟩
  decide

/-- C4 amended: `restart_quiz` resets the score and the answered count to
zero and the position to the first element of the existing traversal
order, which it leaves unchanged; the order is recomputed (and, with
randomize active, reshuffled) only by the toggle handlers. -/
theorem c4_restart_resets_only :
    ∀ (s : SessionState) (shuffle : List Nat → List Nat),
      restart_quiz s =
        { s with currentQuestionIndex := 0, score := 0, questionsAnswered := 0 } ∧
      (restart_quiz s).questionOrder = s.questionOrder ∧
      (toggle_randomize shuffle true s).questionOrder =
        shuffle (filteredIdx { s with randomized := true }) := by
  intro s shuffle
  refine ⟨rfl, rfl, ?_⟩
  simp [toggle_randomize, restart_quiz, init_question_order]

/-- C8: whenever the underlying shuffle produces a permutation, every
recomputation of the order yields a permutation of the same filtered
unique-index list, both with randomize on and off; and two
permutation-valid shuffles can produce different orders on the same
state, as the identity and reversal shuffles show on `s8ex`. -/
theorem c8_order_is_permutation :
    ∀ (s : SessionState) (shuffle : List Nat → List Nat),
      (∀ l, (shuffle l).Perm l) →
      ((init_question_order shuffle s).questionOrder).Perm (filteredIdx s) ∧
      (init_question_order id s8ex).questionOrder = [0, 1] ∧
      (init_question_order (fun l => l.reverse) s8ex).questionOrder = [1, 0] ∧
      ([0, 1] : List Nat) ≠ [1, 0] := by
  intro s shuffle hsh
  refine ⟨?_, by decide, by decide, by decide⟩
  by_cases hr : s.randomized
  · simp [init_question_order, hr]
    exact hsh _
  · simp [init_question_order, hr]

/-- C8 witness at the identity shuffle on `s8ex`. -/
theorem c8_order_is_permutation_witness :
    ((init_question_order id s8ex).questionOrder).Perm (filteredIdx s8ex) :=
  (c8_order_is_permutation s8ex id (fun l => List.Perm.refl l)).1

/-- C9: the three load-time error cases — no path given, file not found,
and a file that parses to zero valid questions — each report an error
message and leave the question set and the order empty, and the
subsequent `show_question` returns normally with no question to show
(the application stays open; no exception escapes). -/
theorem c9_load_errors_leave_empty_state :
    ∀ (given : Bool) (fc : Option (List Char)),
      (given = false ∨ fc = none ∨
        (∃ content, fc = some content ∧ parseQuestions content = [])) →
      ((load_questions given fc).2).isSome = true ∧
      (load_questions given fc).1.questions = [] ∧
      (load_questions given fc).1.questionOrder = [] ∧
      show_question ((load_questions given fc).1) = Except.ok none := by
  intro given fc h
  rcases h with h | h | ⟨content, hfc, hpc⟩
  · subst h
    exact ⟨rfl, rfl, rfl, rfl⟩
  · subst h
    cases given <;> exact ⟨rfl, rfl, rfl, rfl⟩
  · subst hfc
    cases given
    · exact ⟨rfl, rfl, rfl, rfl⟩
    · have hq : annotateQuestions (parseQuestions content) = [] := by
        rw [hpc]
        rfl
      simp [load_questions, hq, show_question]

/-- C9 witness: a file with no parsable question block. -/
theorem c9_load_errors_leave_empty_state_witness :
    ((load_questions true (some (("hello").toList))).2).isSome = true ∧
    (load_questions true (some (("hello").toList))).1.questions = [] ∧
    (load_questions true (some (("hello").toList))).1.questionOrder = [] ∧
    show_question ((load_questions true (some (("hello").toList))).1) = Except.ok none :=
  c9_load_errors_leave_empty_state true (some (("hello").toList))
    (Or.inr (Or.inr ⟨("hello").toList, rfl, by decide⟩))

/-- C10: at the end of the traversal `advance_to_next` displays
`score/total` where the denominator is the count of all loaded questions
(restricted to non-AI ones when the filter is on), not the length of the
traversal order; on the duplicate file the denominator is 2 while only 1
question was presented. -/
theorem c10_final_total_counts_all_questions :
    ∀ s : SessionState,
      ¬ (s.currentQuestionIndex < s.questionOrder.length - 1) →
      advance_to_next s = Sum.inr (s.score, finalScoreTotal s) ∧
      finalScoreTotal s =
        (if s.nonAiOnly then (s.questions.filter (fun q => !q.is_ai)).length
         else s.questions.length) ∧
      (mkSession contentDup).questions.length = 2 ∧
      (mkSession contentDup).questionOrder.length = 1 ∧
      advance_to_next (mkSession contentDup) = Sum.inr (0, 2) := by
  intro s h
  refine ⟨?_, rfl, by decide, by decide, by decide⟩
  simp [advance_to_next, h]

/-- C10 witness: the duplicate file's session is already at the end of
its one-element order. -/
theorem c10_final_total_counts_all_questions_witness :
    advance_to_next (mkSession contentDup) =
      Sum.inr ((mkSession contentDup).score, finalScoreTotal (mkSession contentDup)) :=
  (c10_final_total_counts_all_questions (mkSession contentDup) (by decide)).1

/-! ## Structural facts about the parser -/

/-- Fields of a successfully parsed block: the option list is the
nonempty list of parsed option lines, and the section is assigned with
`sectionForLine` from the position of the block's first occurrence. -/
theorem parseBlock_some_fields {content block : List Char} {q : Question}
    (h : parseBlock content block = some q) :
    q.options ≠ [] ∧
    q.source_exam = sectionForLine (sectionsOf content) (lastSectionName content)
      ((content.take ((findSub block content).getD 0)).count '\n') := by
  simp only [parseBlock] at h
  split at h
  · exact absurd h (by simp)
  · split at h
    · exact absurd h (by simp)
    · rename_i l0 restLines heq
      split at h
      · exact absurd h (by simp)
      · split at h
        · exact absurd h (by simp)
        · rename_i hne
          injection h with h
          subst h
          refine ⟨?_, rfl⟩
          intro hnil
          apply hne
          rw [List.isEmpty_iff]
          exact hnil

/-- The questions of a freshly loaded session are exactly the annotated
parse of the file. -/
theorem mkSession_questions (content : List Char) :
    (mkSession content).questions = annotateQuestions (parseQuestions content) := by
  unfold mkSession load_questions
  by_cases h : (annotateQuestions (parseQuestions content)).isEmpty
  · have h2 : annotateQuestions (parseQuestions content) = [] := by
      simpa using h
    simp [h, h2]
  · simp [h, init_question_order]

/-- Annotation only rewrites the duplicate bookkeeping fields: every
question of the annotated list agrees with a parsed question on all
other fields. -/
theorem mem_annotateQuestions {qs : List Question} {q : Question}
    (h : q ∈ annotateQuestions qs) :
    ∃ r ∈ qs, q.options = r.options ∧ q.valid_answers = r.valid_answers ∧
      q.source_exam = r.source_exam ∧ q.key = r.key ∧ q.question = r.question := by
  unfold annotateQuestions at h
  rw [List.mem_map] at h
  obtain ⟨p, hp, hfp⟩ := h
  have hmem : p.2 ∈ qs := List.snd_mem_of_mem_enumFrom hp
  refine ⟨p.2, hmem, ?_⟩
  subst hfp
  split <;> simp

/-! ## Finding the last matching element -/

/-- Finding on the reversed list yields the last matching element: `find?` is the last matching element. -/
theorem find?_reverse_eq_getLast?_filter {α : Type _} (p : α → Bool) (l : List α) :
    l.reverse.find? p = (l.filter p).getLast? := by
  induction l with
  | nil => rfl
  | cons a l ih =>
    rw [List.reverse_cons, List.find?_append, ih, List.filter_cons]
    by_cases hpa : p a = true
    · simp only [hpa, if_pos]
      cases hfl : (l.filter p) with
      | nil => simp [hpa]
      | cons b bs =>
        rw [List.getLast?_cons_cons]
        have hs : (List.getLast? (b :: bs)).isSome = true := by
          rw [List.getLast?_isSome]
          simp
        obtain ⟨c, hc⟩ := Option.isSome_iff_exists.mp hs
        rw [hc]
        simp [Option.or]
    · simp only [hpa]
      simp [List.find?, hpa]

/-- The section loop computes the last heading whose line number is at
most `n`, with the supplied default as fallback. -/
theorem sectionForLine_eq_getLast {secs : List (Nat × List Char)} {dflt : List Char} {n : Nat} :
    sectionForLine secs dflt n =
      (match (secs.filter (fun p => p.1 ≤ n)).getLast? with
       | some p => p.2
       | none => dflt) := by
  unfold sectionForLine
  rw [find?_reverse_eq_getLast?_filter]

/-! ## C3: section assignment -/

/-- The file of the C3 counterexample: a question block followed (not
preceded) by a heading. -/
def content3 : List Char := ("1. Q?\n   1. A\n## Later").toList

/-- The single block of `content3`. -/
def block3 : List Char := ("1. Q?\n   1. A").toList

/-- C3 counterexample: no heading precedes the only question block of
`content3`, yet its assigned section is `"Later"` (the last heading of
the file), not `"Unknown Exam"`. -/
theorem c3_no_preceding_heading_not_unknown :
    (parseQuestions content3).map (fun q => q.source_exam) = [("Later").toList] ∧
    ("Later").toList ≠ ("Unknown Exam").toList := by
  exact ⟨by decide, by decide⟩

/-- C3 amended: every parsed question block is assigned the nearest
heading line preceding the first occurrence of the block's text; when no
heading precedes it the fallback is the last heading of the file, and it
is `"Unknown Exam"` exactly when the file has no heading at all. -/
theorem c3_section_is_nearest_preceding_heading :
    ∀ (content block : List Char) (q : Question),
      parseBlock content block = some q →
      q.source_exam = nearestPrecedingSection content
        ((content.take ((findSub block content).getD 0)).count '\n') ∧
      (sectionsOf content = [] → q.source_exam = ("Unknown Exam").toList) := by
  intro content block q h
  have h2 := (parseBlock_some_fields h).2
  have h3 : q.source_exam = nearestPrecedingSection content
      ((content.take ((findSub block content).getD 0)).count '\n') := by
    rw [h2, sectionForLine_eq_getLast]
    rfl
  refine ⟨h3, ?_⟩
  intro hsec
  rw [h3]
  unfold nearestPrecedingSection lastSectionName
  rw [hsec]
  rfl

/-- C3 witness: the amended claim applied to the concrete file
`content3` and its block. -/
theorem c3_section_is_nearest_preceding_heading_witness :
    (parseBlock content3 block3).map (fun q => q.source_exam) =
      some (nearestPrecedingSection content3
        ((content3.take ((findSub block3 content3).getD 0)).count '\n')) := by
  cases H : parseBlock content3 block3 with
  | none => exact absurd H (by decide)
  | some q =>
    have h2 := (c3_section_is_nearest_preceding_heading content3 block3 q H).1
    simp only [Option.map_some']
    rw [h2]

/-! ## C5: correctness judgement -/

/-- The `[A, B, C, D]` question with `valid: 2`. -/
def qABCD : Question :=
  { question := ("Q").toList,
    options := [("A").toList, ("B").toList, ("C").toList, ("D").toList],
    valid_answers := 2, is_ai := false, source_exam := ("S").toList,
    key := ("q").toList, duplicate_count := 1, duplicate_sources := [("S").toList] }

/-- A session presenting `qABCD`. -/
def sABCD : SessionState :=
  { questions := [qABCD], uniqueQuestions := [0], questionOrder := [0],
    currentQuestionIndex := 0, score := 0, questionsAnswered := 0,
    randomized := false, nonAiOnly := false }

/-- C5: an answer is judged correct exactly when the selected displayed
option's original (file-order) index is below the valid-answer count,
for every display shuffle; on `[A, B, C, D]` with `valid: 2` the
selection is correct exactly when the displayed option is `A` or `B`,
for every permutation used as the display shuffle. -/
theorem c5_correct_iff_original_index_lt_valid :
    (∀ (s : SessionState) (q : Question) (perm : List Nat) (d i : Nat),
      get_current_question s = some q → perm.get? d = some i →
      ∃ s2, show_result s perm d = some (decide (i < q.valid_answers), s2)) ∧
    (∀ (perm : List Nat) (d i : Nat), perm.Perm (List.range 4) → perm.get? d = some i →
      ((show_result sABCD perm d).map (fun p => p.1) = some true ↔
        (qABCD.options.get? i = some (("A").toList) ∨
         qABCD.options.get? i = some (("B").toList)))) := by
  constructor
  · intro s q perm d i hq hget
    refine ⟨{ s with
      score := s.score + (if decide (i < q.valid_answers) then 1 else 0),
      questionsAnswered := s.questionsAnswered + 1 }, ?_⟩
    simp only [show_result, hq, hget]
  · intro perm d i hp hget
    have hcur : get_current_question sABCD = some qABCD := rfl
    have hi : i < 4 := by
      have hm : i ∈ perm := List.get?_mem hget
      rw [hp.mem_iff] at hm
      exact List.mem_range.mp hm
    simp only [show_result, hcur, hget, Option.map_some]
    interval_cases i <;> simp [qABCD]

/-- C5 witness: a concrete shuffle `[2, 0, 3, 1]` with display position 1
carrying original option index 0. -/
theorem c5_correct_iff_original_index_lt_valid_witness :
    ∃ s2, show_result sABCD [2, 0, 3, 1] 1 = some (true, s2) := by
  have h := c5_correct_iff_original_index_lt_valid.1 sABCD qABCD [2, 0, 3, 1] 1 0
    rfl (by decide)
  simpa using h

/-! ## C6: data-model invariant -/

/-- A file whose question declares `valid: 5` but has only two options. -/
def contentBadValid : List Char := ("1. Q <!-- valid: 5 -->\n   1. A\n   2. B").toList

/-- C6 counterexample: the loader accepts a `valid:` count exceeding the
option count, so the loaded question violates the claimed invariant
`valid-answer count ≤ option count`. -/
theorem c6_valid_count_unchecked :
    (mkSession contentBadValid).questions.length = 1 ∧
    ((mkSession contentBadValid).questions.get? 0).map
      (fun q => (q.valid_answers, q.options.length)) = some (5, 2) ∧
    ¬ (5 ≤ 2) := by
  exact ⟨by decide, by decide, by decide⟩

/-- C6 amended: every question in the loaded set has a non-empty option
list (blocks without options are discarded); the valid-answer count is
taken from the `valid:` comment without a bounds check, so it need not
be at most the option count. -/
theorem c6_loaded_options_nonempty :
    ∀ (content : List Char) (q : Question),
      q ∈ (mkSession content).questions → q.options ≠ [] := by
  intro content q hq
  rw [mkSession_questions] at hq
  obtain ⟨r, hr, hopt, -⟩ := mem_annotateQuestions hq
  unfold parseQuestions at hr
  rw [List.mem_filterMap] at hr
  obtain ⟨block, -, hpb⟩ := hr
  rw [hopt]
  exact (parseBlock_some_fields hpb).1

/-- C6 witness: the amended claim applied to the bad-valid file. -/
theorem c6_loaded_options_nonempty_witness :
    ((mkSession contentBadValid).questions.get? 0).map (fun q => q.options) ≠
      some [] := by
  cases H : (mkSession contentBadValid).questions.get? 0 with
  | none => simp
  | some q =>
    have hm : q ∈ (mkSession contentBadValid).questions := List.get?_mem H
    have h := c6_loaded_options_nonempty contentBadValid q hm
    simp [h]

/-! ## C7: unique-question counting -/

/-- The function `firstKeysAux` never produces more elements than its input. -/
theorem firstKeysAux_length_le (l : List (List Char)) :
    ∀ seen, (firstKeysAux seen l).length ≤ l.length := by
  induction l with
  | nil => intro seen; simp [firstKeysAux]
  | cons k ks ih =>
    intro seen
    unfold firstKeysAux
    by_cases h : k ∈ seen
    · simp only [h, if_pos, List.length_cons]
      exact Nat.le_succ_of_le (ih seen)
    · simp only [h, if_neg, not_false_iff, List.length_cons]
      exact Nat.succ_le_succ (ih (k :: seen))

/-- The function `firstKeysAux` preserves the length exactly when the input has no
duplicates and avoids the accumulator. -/
theorem firstKeysAux_length_eq_iff (l : List (List Char)) :
    ∀ seen, ((firstKeysAux seen l).length = l.length ↔
      ((∀ a ∈ l, a ∉ seen) ∧ l.Nodup)) := by
  induction l with
  | nil => intro seen; simp [firstKeysAux]
  | cons k ks ih =>
    intro seen
    unfold firstKeysAux
    by_cases h : k ∈ seen
    · simp only [h, if_pos]
      constructor
      · intro hlen
        exfalso
        have hle := firstKeysAux_length_le ks seen
        simp only [List.length_cons] at hlen
        omega
      · rintro ⟨hall, -⟩
        exact absurd h (hall k (by simp))
    · simp only [h, if_neg, not_false_iff, List.length_cons, Nat.succ.injEq]
      rw [ih (k :: seen)]
      constructor
      · rintro ⟨hall, hnd⟩
        constructor
        · intro a ha
          rcases List.mem_cons.mp ha with rfl | ha2
          · exact h
          · intro hs
            exact (hall a ha2) (List.mem_cons_of_mem _ hs)
        · rw [List.nodup_cons]
          refine ⟨?_, hnd⟩
          intro hk
          exact (hall k hk) (List.mem_cons_self k seen)
      · rintro ⟨hall, hnds⟩
        rw [List.nodup_cons] at hnds
        refine ⟨?_, hnds.2⟩
        intro a ha hs
        rcases List.mem_cons.mp hs with rfl | hs2
        · exact hnds.1 ha
        · exact (hall a (List.mem_cons_of_mem _ ha)) hs2

/-- C7: when every found block parses to a question (`N` blocks give `N`
questions), the unique-question count is at most `N`, with equality
exactly when no two questions share the same normalized dedup key. -/
theorem c7_unique_count_le_blocks :
    ∀ content : List Char,
      (parseQuestions content).length = (findBlocks content).length →
      (unique_questions (parseQuestions content)).length ≤ (findBlocks content).length ∧
      ((unique_questions (parseQuestions content)).length = (findBlocks content).length ↔
        ((parseQuestions content).map (fun q => q.key)).Nodup) := by
  intro content h
  have hlen : (unique_questions (parseQuestions content)).length =
      (firstKeysAux [] ((parseQuestions content).map (fun q => q.key))).length := by
    unfold unique_questions firstKeys
    rw [List.length_map]
  have hkl : ((parseQuestions content).map (fun q => q.key)).length =
      (parseQuestions content).length := List.length_map _ _
  constructor
  · rw [hlen, ← h, ← hkl]
    exact firstKeysAux_length_le _ []
  · rw [hlen, ← h, ← hkl]
    rw [firstKeysAux_length_eq_iff]
    simp

/-- A two-question file with distinct keys, used as C7 witness input. -/
def content7 : List Char := ("1. Q1?\n   1. A\n2. Q2?\n   1. B").toList

/-- C7 witness: on `content7` both blocks parse, and the unique count is
bounded by the block count. -/
theorem c7_unique_count_le_blocks_witness :
    (unique_questions (parseQuestions content7)).length ≤ (findBlocks content7).length :=
  (c7_unique_count_le_blocks content7 (by decide)).1

/-! ## Character-level lemmas for the dedup key -/

/-- Applying `Char.ofNat` to a valid scalar value round-trips through `toNat`. -/
theorem toNat_ofNat_valid {n : Nat} (h : n.isValidChar) : (Char.ofNat n).toNat = n := by
  unfold Char.ofNat
  rw [dif_pos h]
  unfold Char.ofNatAux Char.toNat
  simp [UInt32.toNat]

/-- Character equality is equality of scalar values. -/
theorem char_eq_iff_toNat {c d : Char} : c = d ↔ c.toNat = d.toNat := by
  constructor
  · intro h; rw [h]
  · intro h
    apply Char.eq_of_val_eq
    exact UInt32.toNat.inj h

/-- The whitespace predicate in terms of scalar values. -/
theorem isPyWs_iff {c : Char} :
    isPyWs c = true ↔
      c.toNat = 32 ∨ c.toNat = 9 ∨ c.toNat = 10 ∨ c.toNat = 13 ∨
        c.toNat = 11 ∨ c.toNat = 12 := by
  unfold isPyWs
  simp only [Bool.or_eq_true, decide_eq_true_eq, char_eq_iff_toNat]
  tauto

/-- The punctuation predicate in terms of scalar values. -/
theorem isPunct_iff {c : Char} :
    isPunct c = true ↔
      c.toNat = 46 ∨ c.toNat = 44 ∨ c.toNat = 59 ∨ c.toNat = 58 ∨
        c.toNat = 40 ∨ c.toNat = 41 := by
  unfold isPunct
  simp only [Bool.or_eq_true, decide_eq_true_eq, char_eq_iff_toNat]
  tauto

/-- Lowercasing a non-uppercase character is the identity. -/
theorem toLower_eq_self_of_not_upper {c : Char} (h : ¬(65 ≤ c.toNat ∧ c.toNat ≤ 90)) :
    Char.toLower c = c := by
  unfold Char.toLower
  rw [if_neg h]

/-- Lowercasing an uppercase character adds 32 to the scalar value. -/
theorem toNat_toLower_of_upper {c : Char} (h : 65 ≤ c.toNat ∧ c.toNat ≤ 90) :
    (Char.toLower c).toNat = c.toNat + 32 := by
  unfold Char.toLower
  rw [if_pos h]
  exact toNat_ofNat_valid (Or.inl (by omega))

/-- Lowercasing preserves whitespace-ness. -/
theorem isPyWs_toLower (c : Char) : isPyWs (Char.toLower c) = isPyWs c := by
  by_cases h : 65 ≤ c.toNat ∧ c.toNat ≤ 90
  · have h1 := toNat_toLower_of_upper h
    have l : isPyWs (Char.toLower c) = false := by
      rw [Bool.eq_false_iff]
      intro hcon
      have := isPyWs_iff.mp hcon
      omega
    have r : isPyWs c = false := by
      rw [Bool.eq_false_iff]
      intro hcon
      have := isPyWs_iff.mp hcon
      omega
    rw [l, r]
  · rw [toLower_eq_self_of_not_upper h]

/-- A whitespace character is fixed by lowercasing. -/
theorem toLower_eq_self_of_ws {c : Char} (h : isPyWs c = true) : Char.toLower c = c := by
  apply toLower_eq_self_of_not_upper
  have := isPyWs_iff.mp h
  omega

/-- A punctuation character is fixed by lowercasing. -/
theorem toLower_eq_self_of_punct {c : Char} (h : isPunct c = true) : Char.toLower c = c := by
  apply toLower_eq_self_of_not_upper
  have := isPunct_iff.mp h
  omega

/-- Whitespace characters are not punctuation. -/
theorem not_punct_of_ws {c : Char} (h : isPyWs c = true) : isPunct c = false := by
  rw [Bool.eq_false_iff]
  intro hcon
  have h1 := isPyWs_iff.mp h
  have h2 := isPunct_iff.mp hcon
  omega

/-- For a target below the uppercase range, lowercasing does not change
whether a character equals it. -/
theorem toLower_eq_iff_of_low {c d : Char} (hd : d.toNat < 65) :
    Char.toLower c = d ↔ c = d := by
  constructor
  · intro h
    by_cases hu : 65 ≤ c.toNat ∧ c.toNat ≤ 90
    · exfalso
      have h1 := toNat_toLower_of_upper hu
      rw [char_eq_iff_toNat] at h
      omega
    · rw [toLower_eq_self_of_not_upper hu] at h
      exact h
  · intro h
    subst h
    apply toLower_eq_self_of_not_upper
    omega

/-- Boolean form of `toLower_eq_iff_of_low` for `==` with the pattern on
the left. -/
theorem beq_toLower_of_low {c d : Char} (hd : d.toNat < 65) :
    (d == Char.toLower c) = (d == c) := by
  rw [Bool.eq_iff_iff]
  simp only [beq_iff_eq]
  constructor
  · intro h
    exact ((toLower_eq_iff_of_low hd).mp h.symm).symm
  · intro h
    exact ((toLower_eq_iff_of_low hd).mpr h.symm).symm

/-! ## The comment stripper on marker-free text -/

/-- The comment opener is insensitive to lowercasing. -/
theorem marker_isPrefixOf_lowerL (l : List Char) :
    (['<', '!', '-', '-'].isPrefixOf (lowerL l)) = (['<', '!', '-', '-'].isPrefixOf l) := by
  match l with
  | [] => rfl
  | [a] =>
    simp [lowerL, List.isPrefixOf]
  | [a, b] =>
    simp [lowerL, List.isPrefixOf]
  | [a, b, c] =>
    simp [lowerL, List.isPrefixOf]
  | a :: b :: c :: d :: t =>
    simp only [lowerL, List.map_cons, List.isPrefixOf]
    rw [beq_toLower_of_low (by decide), beq_toLower_of_low (by decide),
      beq_toLower_of_low (by decide), beq_toLower_of_low (by decide)]

/-- Lowercasing neither creates nor destroys comment openers. -/
theorem hasMarker_lowerL (l : List Char) : hasMarker (lowerL l) = hasMarker l := by
  induction l with
  | nil => rfl
  | cons c rest ih =>
    show hasMarker (Char.toLower c :: lowerL rest) = hasMarker (c :: rest)
    rw [show hasMarker (Char.toLower c :: lowerL rest) =
        (['<', '!', '-', '-'].isPrefixOf (Char.toLower c :: lowerL rest) ||
          hasMarker (lowerL rest)) from rfl]
    rw [show hasMarker (c :: rest) =
        (['<', '!', '-', '-'].isPrefixOf (c :: rest) || hasMarker rest) from rfl]
    have h1 : (['<', '!', '-', '-'].isPrefixOf (Char.toLower c :: lowerL rest)) =
        (['<', '!', '-', '-'].isPrefixOf (c :: rest)) := marker_isPrefixOf_lowerL (c :: rest)
    rw [h1, ih]

/-- On marker-free text the comment stripper is the identity at every
fuel value. -/
theorem stripCommentsF_eq_self_of_no_marker (l : List Char) :
    ∀ f, hasMarker l = false → stripCommentsF f l = l := by
  induction l with
  | nil => intro f _; cases f <;> rfl
  | cons c rest ih =>
    intro f hm
    unfold hasMarker at hm
    rw [Bool.or_eq_false_iff] at hm
    cases f with
    | zero => rfl
    | succ f =>
      unfold stripCommentsF
      rw [if_neg (by rw [hm.1]; exact Bool.false_ne_true)]
      rw [ih f hm.2]

/-- On marker-free text `stripComments` is the identity. -/
theorem stripComments_eq_self_of_no_marker {l : List Char} (h : hasMarker l = false) :
    stripComments l = l :=
  stripCommentsF_eq_self_of_no_marker l _ h

/-- Lowercasing commutes with stripping. -/
theorem pyStrip_lowerL (l : List Char) : pyStrip (lowerL l) = lowerL (pyStrip l) := by
  have hws : (isPyWs ∘ Char.toLower) = isPyWs := by
    funext c
    exact isPyWs_toLower c
  unfold pyStrip lowerL
  rw [List.dropWhile_map, hws, ← List.map_reverse, List.dropWhile_map, hws,
    ← List.map_reverse]

/-! ## Key invariance under punctuation insertion -/

/-- Lowercasing preserves the punctuation-insertion relation. -/
theorem punctIns_lowerL {t1 t2 : List Char} (h : PunctIns t1 t2) :
    PunctIns (lowerL t1) (lowerL t2) := by
  induction h with
  | nil => exact PunctIns.nil
  | keep c _ ih => exact PunctIns.keep (Char.toLower c) ih
  | ins c hc _ ih =>
    show PunctIns _ (Char.toLower c :: _)
    rw [toLower_eq_self_of_punct hc]
    exact PunctIns.ins c hc ih

/-- Removing punctuation collapses the insertion relation to equality. -/
theorem removePunct_eq_of_punctIns {t1 t2 : List Char} (h : PunctIns t1 t2) :
    removePunct t2 = removePunct t1 := by
  induction h with
  | nil => rfl
  | keep c _ ih =>
    unfold removePunct at *
    rw [List.filter_cons, List.filter_cons, ih]
  | ins c hc _ ih =>
    unfold removePunct at *
    rw [List.filter_cons]
    simp only [hc, Bool.not_true, Bool.false_eq_true, if_neg, not_false_iff]
    exact ih

/-! ## Key invariance under whitespace variation -/

/-- Lowercasing preserves the whitespace-variation relation. -/
theorem wsVar_lowerL {t1 t2 : List Char} (h : WsVar t1 t2) :
    WsVar (lowerL t1) (lowerL t2) := by
  induction h with
  | nil => exact WsVar.nil
  | keep c hc _ ih =>
    refine WsVar.keep (Char.toLower c) ?_ ih
    rw [isPyWs_toLower]
    exact hc
  | ws h1 h2 hw1 hw2 _ ih =>
    rename_i r1 r2 u1 u2 _
    show WsVar (List.map Char.toLower (r1 ++ u1)) (List.map Char.toLower (r2 ++ u2))
    rw [List.map_append, List.map_append]
    refine WsVar.ws ?_ ?_ ?_ ?_ ih
    · simp [h1]
    · simp [h2]
    · intro c hc
      rw [List.mem_map] at hc
      obtain ⟨x, hx, rfl⟩ := hc
      rw [isPyWs_toLower]
      exact hw1 x hx
    · intro c hc
      rw [List.mem_map] at hc
      obtain ⟨x, hx, rfl⟩ := hc
      rw [isPyWs_toLower]
      exact hw2 x hx

/-- Removing punctuation preserves the whitespace-variation relation. -/
theorem wsVar_removePunct {t1 t2 : List Char} (h : WsVar t1 t2) :
    WsVar (removePunct t1) (removePunct t2) := by
  induction h with
  | nil => exact WsVar.nil
  | keep c hc _ ih =>
    unfold removePunct at *
    rw [List.filter_cons, List.filter_cons]
    by_cases hp : isPunct c = true
    · simp only [hp, Bool.not_true, Bool.false_eq_true, if_neg, not_false_iff]
      exact ih
    · rw [Bool.not_eq_true] at hp
      simp only [hp, Bool.not_false, if_pos]
      exact WsVar.keep c hc ih
  | ws h1 h2 hw1 hw2 _ ih =>
    rename_i r1 r2 u1 u2 _
    unfold removePunct at *
    rw [List.filter_append, List.filter_append]
    have hr1 : r1.filter (fun c => !(isPunct c)) = r1 :=
      List.filter_eq_self.mpr (fun a ha => by
        rw [not_punct_of_ws (hw1 a ha)]
        rfl)
    have hr2 : r2.filter (fun c => !(isPunct c)) = r2 :=
      List.filter_eq_self.mpr (fun a ha => by
        rw [not_punct_of_ws (hw2 a ha)]
        rfl)
    rw [hr1, hr2]
    exact WsVar.ws h1 h2 hw1 hw2 ih

/-- The cons-step equation of `collapseWsAux`. -/
theorem collapseWsAux_cons (b : Bool) (c : Char) (rest : List Char) :
    collapseWsAux b (c :: rest) =
      (if isPyWs c = true then
        (if b = true then collapseWsAux true rest else ' ' :: collapseWsAux true rest)
      else c :: collapseWsAux false rest) := rfl

/-- Inside a run, `collapseWsAux true` skips leading whitespace. -/
theorem collapseWsAux_true_append_ws {r t : List Char}
    (hw : ∀ c ∈ r, isPyWs c = true) :
    collapseWsAux true (r ++ t) = collapseWsAux true t := by
  induction r with
  | nil => rfl
  | cons c r2 ih =>
    rw [List.cons_append, collapseWsAux_cons,
      if_pos (hw c (List.mem_cons_self c r2)), if_pos rfl]
    exact ih (fun a ha => hw a (List.mem_cons_of_mem _ ha))

/-- Outside a run, a nonempty whitespace run contributes exactly one
space. -/
theorem collapseWsAux_false_append_ws {r t : List Char} (hne : r ≠ [])
    (hw : ∀ c ∈ r, isPyWs c = true) :
    collapseWsAux false (r ++ t) = ' ' :: collapseWsAux true t := by
  cases r with
  | nil => exact absurd rfl hne
  | cons c r2 =>
    rw [List.cons_append, collapseWsAux_cons,
      if_pos (hw c (List.mem_cons_self c r2)),
      if_neg (fun hcon => Bool.false_ne_true hcon)]
    rw [collapseWsAux_true_append_ws (fun a ha => hw a (List.mem_cons_of_mem _ ha))]

/-- Whitespace variation does not change the collapsed text, in either
mode. -/
theorem collapseWsAux_eq_of_wsVar {t1 t2 : List Char} (h : WsVar t1 t2) :
    ∀ b, collapseWsAux b t1 = collapseWsAux b t2 := by
  induction h with
  | nil => intro b; rfl
  | keep c hc _ ih =>
    intro b
    rw [collapseWsAux_cons, collapseWsAux_cons,
      if_neg (by rw [hc]; exact Bool.false_ne_true),
      if_neg (by rw [hc]; exact Bool.false_ne_true), ih false]
  | ws h1 h2 hw1 hw2 _ ih =>
    intro b
    cases b with
    | true =>
      rw [collapseWsAux_true_append_ws hw1, collapseWsAux_true_append_ws hw2]
      exact ih true
    | false =>
      rw [collapseWsAux_false_append_ws h1 hw1, collapseWsAux_false_append_ws h2 hw2,
        ih true]

/-! ## C2: deduplication -/

/-- The two question texts of the C2 counterexample, differing only by a
trailing HTML comment (with its customary preceding space). -/
def c2t1 : List Char := ("What is X? <!-- note -->").toList

/-- The comment-free twin of `c2t1`. -/
def c2t2 : List Char := ("What is X?").toList

/-- A file containing the two texts as separate question blocks. -/
def contentC2 : List Char :=
  ("1. What is X? <!-- note -->\n   1. A\n2. What is X?\n   1. A").toList

/-- C2 counterexample: removing the comment happens after stripping, so
the key of `c2t1` keeps a trailing space where the comment stood; the
two texts get different keys and the loader keeps two unique groups
instead of merging them into one. -/
theorem c2_comment_pair_not_merged :
    compute_question_key c2t1 ≠ compute_question_key c2t2 ∧
    (parseQuestions contentC2).map (fun q => q.question) = [c2t1, c2t2] ∧
    (unique_questions (parseQuestions contentC2)).length = 2 := by
  exact ⟨by decide, by decide, by decide⟩

/-- C2 amended: texts that differ only by inserted punctuation, or only
by whitespace variation, get the same dedup key (for stripped texts
without comment markers, the reachable case for question texts); two
questions with equal keys are merged into one duplicate group whose
representative is the first occurrence annotated with the combined
source list and the duplicate count.  Texts differing by an HTML
comment need not get the same key (see the counterexample): residual
whitespace left where the comment stood survives into the key. -/
theorem c2_key_invariance_and_merge :
    (∀ t1 t2 : List Char, PunctIns t1 t2 → hasMarker t1 = false → hasMarker t2 = false →
      pyStrip t1 = t1 → pyStrip t2 = t2 →
      compute_question_key t1 = compute_question_key t2) ∧
    (∀ t1 t2 : List Char, WsVar t1 t2 → hasMarker t1 = false → hasMarker t2 = false →
      pyStrip t1 = t1 → pyStrip t2 = t2 →
      compute_question_key t1 = compute_question_key t2) ∧
    (∀ q1 q2 : Question, q1.key = q2.key →
      unique_questions [q1, q2] = [0] ∧
      annotateQuestions [q1, q2] =
        [{ q1 with
            duplicate_count := 2,
            duplicate_sources := [q1.source_exam, q2.source_exam] }, q2]) := by
  refine ⟨?_, ?_, ?_⟩
  · intro t1 t2 hrel hm1 hm2 hs1 hs2
    unfold compute_question_key
    rw [pyStrip_lowerL, hs1, pyStrip_lowerL, hs2]
    rw [stripComments_eq_self_of_no_marker (by rw [hasMarker_lowerL]; exact hm1)]
    rw [stripComments_eq_self_of_no_marker (by rw [hasMarker_lowerL]; exact hm2)]
    rw [removePunct_eq_of_punctIns (punctIns_lowerL hrel)]
  · intro t1 t2 hrel hm1 hm2 hs1 hs2
    unfold compute_question_key
    rw [pyStrip_lowerL, hs1, pyStrip_lowerL, hs2]
    rw [stripComments_eq_self_of_no_marker (by rw [hasMarker_lowerL]; exact hm1)]
    rw [stripComments_eq_self_of_no_marker (by rw [hasMarker_lowerL]; exact hm2)]
    exact collapseWsAux_eq_of_wsVar (wsVar_removePunct (wsVar_lowerL hrel)) false
  · intro q1 q2 h
    have hbeq : (q1.key == q2.key) = true := by
      rw [beq_iff_eq]
      exact h
    have hbeq1 : (q1.key == q1.key) = true := by rw [beq_iff_eq]
    have hbeq2 : (q2.key == q2.key) = true := by rw [beq_iff_eq]
    constructor
    · show (firstKeys ([q1, q2].map (fun q => q.key))).map (firstIdxOfKey [q1, q2]) = [0]
      have hkeys : ([q1, q2].map (fun q => q.key)) = [q1.key, q2.key] := rfl
      rw [hkeys]
      have hfk : firstKeys [q1.key, q2.key] = [q1.key] := by
        unfold firstKeys
        simp [firstKeysAux, ← h]
      rw [hfk]
      have hidx : firstIdxOfKey [q1, q2] q1.key = 0 := by
        unfold firstIdxOfKey
        rw [List.findIdx_cons]
        rw [hbeq1]
        rfl
      simp [hidx]
    · unfold annotateQuestions
      have henum : ([q1, q2] : List Question).enum = [(0, q1), (1, q2)] := rfl
      rw [henum]
      rw [List.map_cons, List.map_cons, List.map_nil]
      have hidx1 : firstIdxOfKey [q1, q2] q1.key = 0 := by
        unfold firstIdxOfKey
        rw [List.findIdx_cons, hbeq1]
        rfl
      have hidx2 : firstIdxOfKey [q1, q2] q2.key = 0 := by
        unfold firstIdxOfKey
        rw [List.findIdx_cons, hbeq]
        rfl
      simp only [hidx1, hidx2, if_pos, Nat.zero_ne_one, if_neg, one_ne_zero,
        not_false_iff]
      congr 1
      · congr 1
        · rw [List.countP_cons, List.countP_cons, List.countP_nil]
          simp [hbeq1, h.symm]
        · rw [List.filter_cons, List.filter_cons, List.filter_nil]
          simp [hbeq1, h.symm]

/-- C2 witness: concrete instances of the three amended parts — a
punctuation insertion, a whitespace variation, and an equal-key merge. -/
theorem c2_key_invariance_and_merge_witness :
    compute_question_key (("ab").toList) = compute_question_key (("a,b.").toList) ∧
    compute_question_key (("a b").toList) = compute_question_key (("a  b").toList) ∧
    unique_questions [qA, { qA with source_exam := ("T").toList }] = [0] := by
  refine ⟨?_, ?_, ?_⟩
  · exact c2_key_invariance_and_merge.1 (("ab").toList) (("a,b.").toList)
      (PunctIns.keep 'a' (PunctIns.ins ',' (by decide)
        (PunctIns.keep 'b' (PunctIns.ins '.' (by decide) PunctIns.nil))))
      (by decide) (by decide) (by decide) (by decide)
  · exact c2_key_invariance_and_merge.2.1 (("a b").toList) (("a  b").toList)
      (WsVar.keep 'a' (by decide)
        (@WsVar.ws [' '] [' ', ' '] [('b')] [('b')] (by decide) (by decide)
          (by decide) (by decide)
          (WsVar.keep 'b' (by decide) WsVar.nil)))
      (by decide) (by decide) (by decide) (by decide)
  · exact (c2_key_invariance_and_merge.2.2 qA { qA with source_exam := ("T").toList }
      rfl).1
